import Mathlib

/-!
Shallow embedding of `src/registerer.h` (class `factory::Registry<T, Args...>`).

A partition (one instantiation of `Registry<T, Args...>`) owns two
`std::map<std::string, Entry>` tables: the main registry populated by
`__Registerer` (the `REGISTER` macro) and the injectors table populated by
`Injector`'s constructor and destructor.  Both are modelled as association
lists ordered the way `std::map` iterates (ascending keys); `find`,
`emplace` and `erase` mirror the member functions used by the source
(`std::map::find`, `std::map::emplace` — which does NOT overwrite an
existing key — and `std::map::erase`).  A C++ factory `T*(Args...)` may
return null, so it is modelled as `A → Option T` with `none` for a null
pointer; `New`'s `unique_ptr<T>` result is likewise an `Option T`.
-/

namespace Registerer

/-- `Registry<T, Args...>::Entry` from registerer.h:294-298: the
registration file and stringified line, and the factory function. -/
structure Entry (T A : Type) where
  file : String
  line : String
  function : A → Option T

/-- `EntryMap` (registerer.h:299): `std::map<std::string, Entry>`, modelled
as an association list in the map's iteration order. -/
abbrev EntryMap (T A : Type) := List (String × Entry T A)

/-- Lexicographic comparison of character sequences, mirroring
`std::less<std::string>` (element-wise comparison of the underlying
sequences, shorter prefix first). -/
def charListLt : List Char → List Char → Bool
  | [], [] => false
  | [], _ :: _ => true
  | _ :: _, [] => false
  | a :: as, b :: bs =>
    if a.toNat < b.toNat then true
    else if b.toNat < a.toNat then false
    else charListLt as bs

/-- The strict key order of `std::map<std::string, Entry>`: lexicographic
comparison of the strings' character sequences. -/
def keyLt (a b : String) : Bool := charListLt a.data b.data

/-- `std::map::find`. -/
def find {T A : Type} (key : String) : EntryMap T A → Option (Entry T A)
  | [] => none
  | (k, e) :: rest => if key = k then some e else find key rest

/-- `std::map::emplace`: inserts at the key's ordered position when the key
is absent, and leaves the map unchanged when the key is already present. -/
def emplace {T A : Type} (key : String) (e : Entry T A) :
    EntryMap T A → EntryMap T A
  | [] => [(key, e)]
  | (k, e') :: rest =>
    if keyLt key k then (key, e) :: (k, e') :: rest
    else if key = k then (k, e') :: rest
    else (k, e') :: emplace key e rest

/-- `std::map::erase(key)`. -/
def erase {T A : Type} (key : String) : EntryMap T A → EntryMap T A
  | [] => []
  | (k, e') :: rest => if key = k then rest else (k, e') :: erase key rest

/-- The mutable state of one partition: the injectors table
(`GetInjectors()`, registerer.h:306-309) and the registry
(`GetRegistry()`, registerer.h:302-305). -/
structure RegState (T A : Type) where
  injectors : EntryMap T A
  registry : EntryMap T A

/-- `GetEntry` (registerer.h:312-323): look the key up among the injectors
first, then in the registry.  The C++ version returns `(found, pointer)`
where the pointer is only valid when `found`; here `none` stands for
`found == false`.  The `Args...` parameter is accepted and ignored, as in
the source. -/
def GetEntry {T A : Type} (s : RegState T A) (key : String) (_a : A) :
    Option (Entry T A) :=
  match find key s.injectors with
  | some e => some e
  | none => find key s.registry

/-- `CanNew` (registerer.h:200-202): `GetEntry(key, args...).first`. -/
def CanNew {T A : Type} (s : RegState T A) (key : String) (a : A) : Bool :=
  (GetEntry s key a).isSome

/-- `New` (registerer.h:210-218): when `GetEntry` finds an entry, invoke its
factory on the arguments (a factory returning a null pointer yields a null
`unique_ptr`, i.e. `none`); otherwise return the null `unique_ptr`. -/
def New {T A : Type} (s : RegState T A) (key : String) (a : A) : Option T :=
  match GetEntry s key a with
  | some e => e.function a
  | none => none

/-- `GetKeys` (registerer.h:232-240): one key per registry entry, in the
map's iteration order.  The injectors table is not consulted. -/
def GetKeys {T A : Type} (s : RegState T A) : List String :=
  s.registry.map (fun p => p.1)

/-- The string built for one entry by `GetKeysWithLocations`
(registerer.h:248-249): `file + ":" + line + ": " + key`. -/
def locationString {T A : Type} (p : String × Entry T A) : String :=
  p.2.file ++ ":" ++ p.2.line ++ ": " ++ p.1

/-- `GetKeysWithLocations` (registerer.h:244-253): one formatted string per
registry entry, in the map's iteration order. -/
def GetKeysWithLocations {T A : Type} (s : RegState T A) : List String :=
  s.registry.map locationString

/-- `__Registerer`'s constructor (registerer.h:283-291): emplace the entry
into the registry. -/
def registerEntry {T A : Type} (key : String) (e : Entry T A)
    (s : RegState T A) : RegState T A :=
  { s with registry := emplace key e s.registry }

/-- `Injector`'s constructor (registerer.h:263-271): emplace the entry into
the injectors table. -/
def injectorInstall {T A : Type} (key : String) (e : Entry T A)
    (s : RegState T A) : RegState T A :=
  { s with injectors := emplace key e s.injectors }

/-- `Injector`'s destructor (registerer.h:272-276): erase the key from the
injectors table. -/
def injectorDispose {T A : Type} (key : String) (s : RegState T A) :
    RegState T A :=
  { s with injectors := erase key s.injectors }

/-- Modelled from the spec: the `REGISTER_ALIAS` macro invoked in
`registerer_example.cc` line 41 is not defined anywhere under the
repository's sources, so the alias operation is taken from spec section 4.4:
look up `existingKey`'s Entry in the store and, if found, insert a new Entry
under `newKey` with the same factory and a location describing the alias
call site; if `existingKey` is absent the call has no observable effect.
Insertion into the store is the store's own (non-overwriting) insert. -/
def aliasOp {T A : Type} (existingKey newKey : String) (file line : String)
    (s : RegState T A) : RegState T A :=
  match find existingKey s.registry with
  | some e =>
      { s with registry := emplace newKey ⟨file, line, e.function⟩ s.registry }
  | none => s

/-!
### Mutex discipline

`Registry` guards both tables with the static `registry_mutex_`
(registerer.h:310, 326-327).  Each public operation is abstracted by the
sequence of `lock()` / `unlock()` calls its body performs, read off the
source; `runMutex` replays such a sequence against an ownership flag.
-/

/-- One action on `registry_mutex_`. -/
inductive MutexEvent
  | lock
  | unlock
deriving DecidableEq

/-- Replay a sequence of mutex actions from ownership state `held`.
`none` marks a violation: locking while already held (`std::mutex`
self-deadlock) or unlocking while not held (undefined behavior).
Otherwise the final ownership state is returned. -/
def runMutex : Bool → List MutexEvent → Option Bool
  | held, [] => some held
  | false, .lock :: rest => runMutex true rest
  | true, .lock :: _ => none
  | true, .unlock :: rest => runMutex false rest
  | false, .unlock :: _ => none

/-- A well-behaved operation: starting unlocked, it hits no violation and
leaves the mutex unlocked. -/
def balancedEvents (events : List MutexEvent) : Bool :=
  runMutex false events == some false

/-- `GetEntry` (registerer.h:312-323): `lock()` on line 314, `unlock()` on
line 321. -/
def getEntryEvents : List MutexEvent := [.lock, .unlock]

/-- `New` (registerer.h:210-218): the actions of `GetEntry`, then the
additional `registry_mutex_.unlock()` on line 216. -/
def newEvents : List MutexEvent := getEntryEvents ++ [.unlock]

/-- `CanNew` (registerer.h:200-202) performs exactly `GetEntry`'s actions. -/
def canNewEvents : List MutexEvent := getEntryEvents

/-- `GetKeys` (registerer.h:232-240): lock on line 234, unlock on 238. -/
def getKeysEvents : List MutexEvent := [.lock, .unlock]

/-- `GetKeysWithLocations` (registerer.h:244-253): lock on line 246, unlock
on 251. -/
def getKeysWithLocationsEvents : List MutexEvent := [.lock, .unlock]

/-- `__Registerer`'s constructor (registerer.h:283-291): lock on line 287,
unlock on 289. -/
def registererEvents : List MutexEvent := [.lock, .unlock]

/-- `Injector`'s constructor (registerer.h:263-271): lock on line 267,
unlock on 270. -/
def injectorCtorEvents : List MutexEvent := [.lock, .unlock]

/-- `Injector`'s destructor (registerer.h:272-276): lock on line 273,
unlock on 275. -/
def injectorDtorEvents : List MutexEvent := [.lock, .unlock]

/-! ### Invariants and concrete states -/

/-- The claimed key invariant: every key present in the store or in the
override table is a non-empty string. -/
def nonEmptyKeys {T A : Type} (s : RegState T A) : Prop :=
  (∀ p ∈ s.registry, p.1 ≠ "") ∧ (∀ p ∈ s.injectors, p.1 ≠ "")

/-- The `std::map` representation invariant: keys strictly ascending (in
the map's lexicographic order) along the iteration order.  Every table the
C++ program builds satisfies it. -/
def sortedKeys {T A : Type} (m : EntryMap T A) : Prop :=
  m.Pairwise (fun p q => keyLt p.1 q.1 = true)

/-- A factory producing the value 1 (a non-null pointer). -/
def entryOne : Entry Nat Unit := ⟨"file1", "11", fun _ => some 1⟩

/-- A factory producing the value 2. -/
def entryTwo : Entry Nat Unit := ⟨"file2", "22", fun _ => some 2⟩

/-- A factory producing the value 3. -/
def entryThree : Entry Nat Unit := ⟨"file3", "33", fun _ => some 3⟩

/-- A factory that returns a null pointer for every argument. -/
def entryNull : Entry Nat Unit := ⟨"file0", "0", fun _ => none⟩

/-- Both tables empty. -/
def emptyState : RegState Nat Unit := ⟨[], []⟩

/-- An override and a store entry for the same key "K". -/
def shadowedState : RegState Nat Unit :=
  ⟨[("K", entryOne)], [("K", entryThree)]⟩

/-- A store entry for "K" and no overrides. -/
def storeState : RegState Nat Unit := ⟨[], [("K", entryTwo)]⟩

/-- An override for "K" and an empty store. -/
def overrideState : RegState Nat Unit := ⟨[("K", entryOne)], []⟩

/-- A store holding keys "A" and "B" with distinguishable factories. -/
def twoKeyState : RegState Nat Unit :=
  ⟨[], [("A", entryOne), ("B", entryTwo)]⟩

/-- A store whose single entry has a factory returning a null pointer. -/
def nullFactoryState : RegState Nat Unit := ⟨[], [("K", entryNull)]⟩

/-! ### Lemmas about the map operations -/

theorem charListLt_self (l : List Char) : charListLt l l = false := by
  induction l with
  | nil => rfl
  | cons c rest ih => simp [charListLt, ih]

theorem keyLt_self (a : String) : keyLt a a = false := charListLt_self a.data

theorem keyLt_self_not (a : String) : ¬ keyLt a a = true := by
  simp [keyLt_self]

theorem keyLt_ne {a b : String} (h : keyLt a b = true) : a ≠ b := by
  intro heq
  rw [heq, keyLt_self] at h
  exact Bool.false_ne_true h

theorem find_emplace_self {T A : Type} (key : String) (e : Entry T A)
    (m : EntryMap T A) (h : find key m = none) :
    find key (emplace key e m) = some e := by
  induction m with
  | nil => simp [emplace, find]
  | cons p rest ih =>
    obtain ⟨k, e'⟩ := p
    rw [find] at h
    by_cases hk : key = k
    · rw [if_pos hk] at h
      exact absurd h (by simp)
    · rw [if_neg hk] at h
      by_cases hlt : keyLt key k = true
      · rw [emplace, if_pos hlt]
        simp [find]
      · rw [emplace, if_neg hlt, if_neg hk, find, if_neg hk]
        exact ih h

theorem find_emplace_ne {T A : Type} (k key : String) (e : Entry T A)
    (m : EntryMap T A) (h : key ≠ k) :
    find key (emplace k e m) = find key m := by
  induction m with
  | nil => simp [emplace, find, h]
  | cons p rest ih =>
    obtain ⟨k', e'⟩ := p
    by_cases hlt : keyLt k k' = true
    · rw [emplace, if_pos hlt, find, if_neg h]
    · by_cases hk : k = k'
      · rw [emplace, if_neg hlt, if_pos hk]
      · rw [emplace, if_neg hlt, if_neg hk, find, find, ih]

theorem emplace_emplace_same {T A : Type} (key : String) (e1 e2 : Entry T A)
    (m : EntryMap T A) (h : find key m = none) :
    emplace key e2 (emplace key e1 m) = emplace key e1 m := by
  induction m with
  | nil => simp [emplace, keyLt_self]
  | cons p rest ih =>
    obtain ⟨k, e'⟩ := p
    rw [find] at h
    by_cases hk : key = k
    · rw [if_pos hk] at h
      exact absurd h (by simp)
    · rw [if_neg hk] at h
      by_cases hlt : keyLt key k = true
      · rw [emplace, if_pos hlt, emplace, if_neg (keyLt_self_not key)]
        simp
      · rw [emplace, if_neg hlt, if_neg hk, emplace, if_neg hlt,
          if_neg hk, ih h]

theorem erase_emplace {T A : Type} (key : String) (e : Entry T A)
    (m : EntryMap T A) (h : find key m = none) :
    erase key (emplace key e m) = m := by
  induction m with
  | nil => simp [emplace, erase]
  | cons p rest ih =>
    obtain ⟨k, e'⟩ := p
    rw [find] at h
    by_cases hk : key = k
    · rw [if_pos hk] at h
      exact absurd h (by simp)
    · rw [if_neg hk] at h
      by_cases hlt : keyLt key k = true
      · rw [emplace, if_pos hlt]
        simp [erase]
      · rw [emplace, if_neg hlt, if_neg hk, erase, if_neg hk, ih h]

theorem mem_emplace {T A : Type} {p : String × Entry T A} {key : String}
    {e : Entry T A} {m : EntryMap T A} (h : p ∈ emplace key e m) :
    p = (key, e) ∨ p ∈ m := by
  induction m with
  | nil =>
    simp only [emplace, List.mem_singleton] at h
    exact Or.inl h
  | cons q rest ih =>
    obtain ⟨k, e'⟩ := q
    by_cases hlt : keyLt key k = true
    · rw [emplace, if_pos hlt] at h
      rcases List.mem_cons.mp h with h1 | h2
      · exact Or.inl h1
      · exact Or.inr h2
    · by_cases hk : key = k
      · rw [emplace, if_neg hlt, if_pos hk] at h
        exact Or.inr h
      · rw [emplace, if_neg hlt, if_neg hk] at h
        rcases List.mem_cons.mp h with h1 | h2
        · exact Or.inr (List.mem_cons.mpr (Or.inl h1))
        · rcases ih h2 with h3 | h4
          · exact Or.inl h3
          · exact Or.inr (List.mem_cons.mpr (Or.inr h4))

theorem mem_erase {T A : Type} {p : String × Entry T A} {key : String}
    {m : EntryMap T A} (h : p ∈ erase key m) : p ∈ m := by
  induction m with
  | nil =>
    rw [erase] at h
    exact absurd h (List.not_mem_nil p)
  | cons q rest ih =>
    obtain ⟨k, e'⟩ := q
    by_cases hk : key = k
    · rw [erase, if_pos hk] at h
      exact List.mem_cons.mpr (Or.inr h)
    · rw [erase, if_neg hk] at h
      rcases List.mem_cons.mp h with h1 | h2
      · exact List.mem_cons.mpr (Or.inl h1)
      · exact List.mem_cons.mpr (Or.inr (ih h2))

theorem mem_keys_iff_find {T A : Type} (key : String) (m : EntryMap T A) :
    key ∈ m.map (fun p => p.1) ↔ ∃ e, find key m = some e := by
  induction m with
  | nil => simp [find]
  | cons q rest ih =>
    obtain ⟨k, e'⟩ := q
    by_cases hk : key = k
    · subst hk
      simp [find]
    · simp only [List.map_cons, List.mem_cons, hk, false_or, find,
        if_neg hk]
      exact ih

theorem find_of_getElem {T A : Type} {m : EntryMap T A}
    (h : sortedKeys m) {i : Nat} {p : String × Entry T A}
    (hp : m[i]? = some p) : find p.1 m = some p.2 := by
  induction m generalizing i with
  | nil => simp at hp
  | cons q rest ih =>
    obtain ⟨qk, qe⟩ := q
    rw [sortedKeys, List.pairwise_cons] at h
    cases i with
    | zero =>
      simp only [List.getElem?_cons_zero, Option.some.injEq] at hp
      subst hp
      simp [find]
    | succ n =>
      simp only [List.getElem?_cons_succ] at hp
      have hmem : p ∈ rest := by
        rcases List.getElem?_eq_some.mp hp with ⟨hlt, hval⟩
        exact hval ▸ List.getElem_mem hlt
      have hne : p.1 ≠ qk := fun heq => keyLt_ne (h.1 p hmem) heq.symm
      rw [find, if_neg hne]
      exact ih h.2 hp

/-! ### Claim theorems -/

/-- C1: for every key and argument tuple, `New` returns the product of the
injector (override) factory for that key when one is present; otherwise the
product of the store factory when a store entry is present; otherwise the
null `unique_ptr`, and in that same absent-key state `CanNew` returns
false. -/
theorem C1_new_precedence {T A : Type} (s : RegState T A) (key : String)
    (a : A) :
    (∀ e, find key s.injectors = some e → New s key a = e.function a) ∧
    (find key s.injectors = none →
      (∀ e, find key s.registry = some e → New s key a = e.function a) ∧
      (find key s.registry = none →
        New s key a = none ∧ CanNew s key a = false)) := by
  refine ⟨fun e he => ?_, fun hinj => ⟨fun e he => ?_, fun hreg => ?_⟩⟩
  · simp [New, GetEntry, he]
  · simp [New, GetEntry, hinj, he]
  · simp [New, CanNew, GetEntry, hinj, hreg]

/-- C1 witness: the three cases of the precedence, evaluated at the
shadowed, store-only and empty concrete states. -/
theorem C1_new_precedence_witness :
    New shadowedState "K" () = some 1 ∧ New storeState "K" () = some 2 ∧
    New emptyState "K" () = none ∧ CanNew emptyState "K" () = false :=
  ⟨(C1_new_precedence shadowedState "K" ()).1 entryOne rfl,
    ((C1_new_precedence storeState "K" ()).2 rfl).1 entryTwo rfl,
    ((C1_new_precedence emptyState "K" ()).2 rfl).2 rfl⟩

/-- C4: `New` performs two releases for its single acquisition — the
`unlock()` at registerer.h:216 follows the one `GetEntry` already did at
line 321 — so it releases a mutex it does not hold; every other public
operation locks and unlocks in a balanced way. -/
theorem C4_new_double_unlock :
    balancedEvents newEvents = false ∧
    balancedEvents canNewEvents = true ∧
    balancedEvents getKeysEvents = true ∧
    balancedEvents getKeysWithLocationsEvents = true ∧
    balancedEvents registererEvents = true ∧
    balancedEvents injectorCtorEvents = true ∧
    balancedEvents injectorDtorEvents = true := by
  decide

/-- C9: whenever the entry `GetEntry` finds for a key has a factory that
returns the null pointer on the given arguments, `CanNew` returns true
while `New` returns the null `unique_ptr`. -/
theorem C9_cannew_true_new_null {T A : Type} (s : RegState T A)
    (key : String) (a : A) (e : Entry T A)
    (he : GetEntry s key a = some e) (hf : e.function a = none) :
    CanNew s key a = true ∧ New s key a = none := by
  simp [CanNew, New, he, hf]

/-- C9 witness: in `nullFactoryState` the key "K" has a registered factory
returning null, so `CanNew` is true and `New` is null. -/
theorem C9_cannew_true_new_null_witness :
    CanNew nullFactoryState "K" () = true ∧
    New nullFactoryState "K" () = none :=
  C9_cannew_true_new_null nullFactoryState "K" () entryNull rfl rfl

/-- C2 counterexample: in `twoKeyState` the store maps "A" to a factory
producing 1 and "B" to one producing 2.  Aliasing "A" to "B" is a silent
no-op (the store insert is first-wins), so afterwards constructing "B"
still yields 2, not what constructing "A" yielded at alias time. -/
theorem C2_alias_counterexample :
    New twoKeyState "A" () = some 1 ∧
    New (aliasOp "A" "B" "afile" "40" twoKeyState) "B" () = some 2 ∧
    New (aliasOp "A" "B" "afile" "40" twoKeyState) "B" () ≠
      New twoKeyState "A" () := by
  refine ⟨rfl, ?_, ?_⟩ <;> decide

/-- C2 (amended): when `existingKey` has a store entry, `newKey` has no
store entry, and no override is installed for either key, the alias makes
construction via `newKey` return exactly what construction via
`existingKey` returned at alias time; when `existingKey` has no store
entry, the alias call leaves the state unchanged. -/
theorem C2_alias_amended {T A : Type} (s : RegState T A)
    (ek nk file line : String) (a : A) :
    (∀ e, find ek s.registry = some e → find nk s.registry = none →
      find ek s.injectors = none → find nk s.injectors = none →
      New (aliasOp ek nk file line s) nk a = New s ek a) ∧
    (find ek s.registry = none → aliasOp ek nk file line s = s) := by
  constructor
  · intro e he hnk hiek hink
    have hreg : (aliasOp ek nk file line s).registry
        = emplace nk ⟨file, line, e.function⟩ s.registry := by
      simp [aliasOp, he]
    have hinj : (aliasOp ek nk file line s).injectors = s.injectors := by
      simp [aliasOp, he]
    simp [New, GetEntry, hreg, hinj, hink, hiek, he,
      find_emplace_self nk _ s.registry hnk]
  · intro he
    simp [aliasOp, he]

/-- C2 witness: aliasing "K" (present) to "L" (fresh) over the override-free
`storeState` transfers the behavior, and aliasing the absent "X" is a
no-op. -/
theorem C2_alias_amended_witness :
    New (aliasOp "K" "L" "afile" "40" storeState) "L" () =
      New storeState "K" () ∧
    aliasOp "X" "Y" "afile" "40" storeState = storeState :=
  ⟨(C2_alias_amended storeState "K" "L" "afile" "40" ()).1 entryTwo rfl rfl
      rfl rfl,
    (C2_alias_amended storeState "X" "Y" "afile" "40" ()).2 rfl⟩

/-- C3: at the failing input — an override for "K" already installed with a
factory producing 1 — constructing a second `Injector` for "K" with a
factory producing 2 leaves the override table unchanged
(`std::map::emplace` at registerer.h:269 does not overwrite), so lookup
keeps using the earlier factory and never the newly installed one. -/
theorem C3_injector_emplace_no_overwrite :
    injectorInstall "K" entryTwo overrideState = overrideState ∧
    New (injectorInstall "K" entryTwo overrideState) "K" () = some 1 ∧
    New (injectorInstall "K" entryTwo overrideState) "K" () ≠ some 2 := by
  refine ⟨rfl, rfl, by decide⟩

/-- C5: registering the same key twice — first with factory `e1`, then with
`e2` — keeps the entry of the first registration: the second registration
leaves the state entirely unchanged (no failure signal exists in the model:
the operation is total), and, absent an override for the key, `New` invokes
the first-registered factory. -/
theorem C5_first_registration_wins {T A : Type} (s : RegState T A)
    (key : String) (e1 e2 : Entry T A) (a : A)
    (h : find key s.registry = none) :
    registerEntry key e2 (registerEntry key e1 s) = registerEntry key e1 s ∧
    (find key s.injectors = none →
      New (registerEntry key e2 (registerEntry key e1 s)) key a =
        e1.function a) := by
  have hstate : registerEntry key e2 (registerEntry key e1 s)
      = registerEntry key e1 s := by
    simp [registerEntry, emplace_emplace_same key e1 e2 s.registry h]
  refine ⟨hstate, fun hinj => ?_⟩
  rw [hstate]
  simp [New, GetEntry, registerEntry, hinj,
    find_emplace_self key e1 s.registry h]

/-- C5 witness: registering "K" twice over the empty state keeps the first
factory, and `New` produces its value 1. -/
theorem C5_first_registration_wins_witness :
    registerEntry "K" entryTwo (registerEntry "K" entryOne emptyState) =
      registerEntry "K" entryOne emptyState ∧
    New (registerEntry "K" entryTwo (registerEntry "K" entryOne emptyState))
      "K" () = some 1 :=
  ⟨(C5_first_registration_wins emptyState "K" entryOne entryTwo () rfl).1,
    (C5_first_registration_wins emptyState "K" entryOne entryTwo () rfl).2
      rfl⟩

/-- C6 counterexample: in `shadowedState` an override for "K" (factory
producing 1) is already installed over a store entry (producing 3).
Installing a second override for "K" and disposing its handle erases the
pre-existing override — removal is by key — so afterwards `New` returns the
store's 3 rather than the pre-override 1: the round-trip does not restore
the prior behavior in this state. -/
theorem C6_roundtrip_counterexample :
    New shadowedState "K" () = some 1 ∧
    New (injectorDispose "K" (injectorInstall "K" entryTwo shadowedState))
      "K" () = some 3 ∧
    New (injectorDispose "K" (injectorInstall "K" entryTwo shadowedState))
      "K" () ≠ New shadowedState "K" () := by
  refine ⟨rfl, rfl, by decide⟩

/-- C6 (amended): in every state with no override currently installed for
the key, installing an override and then disposing its handle restores the
exact pre-override state, hence the pre-override results of `New` and
`CanNew`; and the disposal removes the override-table entry for the key
unconditionally, leaving no entry for it. -/
theorem C6_roundtrip_amended {T A : Type} (s : RegState T A) (key : String)
    (e : Entry T A) (a : A) (h : find key s.injectors = none) :
    injectorDispose key (injectorInstall key e s) = s ∧
    New (injectorDispose key (injectorInstall key e s)) key a
      = New s key a ∧
    CanNew (injectorDispose key (injectorInstall key e s)) key a
      = CanNew s key a ∧
    find key (injectorDispose key (injectorInstall key e s)).injectors
      = none := by
  have hstate : injectorDispose key (injectorInstall key e s) = s := by
    simp [injectorDispose, injectorInstall,
      erase_emplace key e s.injectors h]
  refine ⟨hstate, by rw [hstate], by rw [hstate], ?_⟩
  rw [hstate]
  exact h

/-- C6 witness: the override-free `storeState` round-trips through an
install/dispose pair for "K". -/
theorem C6_roundtrip_amended_witness :
    injectorDispose "K" (injectorInstall "K" entryOne storeState)
      = storeState ∧
    New (injectorDispose "K" (injectorInstall "K" entryOne storeState))
      "K" () = New storeState "K" () ∧
    CanNew (injectorDispose "K" (injectorInstall "K" entryOne storeState))
      "K" () = CanNew storeState "K" () ∧
    find "K"
      (injectorDispose "K"
        (injectorInstall "K" entryOne storeState)).injectors = none :=
  C6_roundtrip_amended storeState "K" entryOne () rfl

/-- C7: `GetKeys` returns exactly the keys present in the store — a key is
listed iff `find` succeeds on the registry, and a key absent from the store
(even one present in the override table) is not listed — and
`GetKeysWithLocations` has one string per store entry, the entry's file, a
colon, its line, the text ": ", and the key. -/
theorem C7_getkeys_store_only {T A : Type} (s : RegState T A)
    (key : String) :
    (key ∈ GetKeys s ↔ ∃ e, find key s.registry = some e) ∧
    (find key s.registry = none → key ∉ GetKeys s) ∧
    (∀ i : Nat, (GetKeysWithLocations s)[i]? =
      (s.registry[i]?).map
        (fun p => p.2.file ++ ":" ++ p.2.line ++ ": " ++ p.1)) := by
  refine ⟨mem_keys_iff_find key s.registry, fun h hmem => ?_, fun i => ?_⟩
  · obtain ⟨e, he⟩ := (mem_keys_iff_find key s.registry).mp hmem
    rw [h] at he
    simp at he
  · cases hp : s.registry[i]? with
    | none => simp [GetKeysWithLocations, hp]
    | some p => simp [GetKeysWithLocations, hp, locationString]

/-- C7 witness: "K" is listed for the store-only state; it is not listed in
`overrideState`, where it sits only in the override table; and the single
location string of `storeState` is formatted from its entry. -/
theorem C7_getkeys_store_only_witness :
    "K" ∈ GetKeys storeState ∧ "K" ∉ GetKeys overrideState ∧
    (GetKeysWithLocations storeState)[0]? = some "file2:22: K" :=
  ⟨(C7_getkeys_store_only storeState "K").1.mpr ⟨entryTwo, rfl⟩,
    (C7_getkeys_store_only overrideState "K").2.1 rfl,
    ((C7_getkeys_store_only storeState "K").2.2 0).trans rfl⟩

/-- C8 counterexample: no operation validates keys.  Registering the empty
string as a key over the empty state succeeds and yields a reachable state
whose store contains the empty key, so the invariant is not preserved by
every operation. -/
theorem C8_empty_key_counterexample :
    nonEmptyKeys emptyState ∧
    ¬ nonEmptyKeys (registerEntry "" entryOne emptyState) := by
  constructor
  · exact ⟨fun p hp => absurd hp (List.not_mem_nil p),
      fun p hp => absurd hp (List.not_mem_nil p)⟩
  · intro hinv
    exact hinv.1 ("", entryOne)
      (by simp [registerEntry, emptyState, emplace]) rfl

/-- C8 (amended): every operation invoked with a non-empty key preserves
the invariant that every key present in the store or the override table is
non-empty (registration and injector installation for the key they insert,
alias for the new key it inserts; injector disposal inserts nothing).  The
code itself never rejects an empty key, so an operation handed one breaks
the invariant. -/
theorem C8_nonempty_preserved {T A : Type} (s : RegState T A)
    (key ek nk file line : String) (e : Entry T A)
    (hs : nonEmptyKeys s) :
    (key ≠ "" → nonEmptyKeys (registerEntry key e s)) ∧
    (key ≠ "" → nonEmptyKeys (injectorInstall key e s)) ∧
    nonEmptyKeys (injectorDispose key s) ∧
    (nk ≠ "" → nonEmptyKeys (aliasOp ek nk file line s)) := by
  obtain ⟨hreg, hinj⟩ := hs
  refine ⟨fun hk => ⟨fun p hp => ?_, fun p hp => hinj p hp⟩,
    fun hk => ⟨fun p hp => hreg p hp, fun p hp => ?_⟩,
    ⟨fun p hp => hreg p hp, fun p hp => hinj p (mem_erase hp)⟩,
    fun hk => ?_⟩
  · rcases mem_emplace hp with h1 | h2
    · rw [h1]; exact hk
    · exact hreg p h2
  · rcases mem_emplace hp with h1 | h2
    · rw [h1]; exact hk
    · exact hinj p h2
  · cases hfind : find ek s.registry with
    | none =>
      have hsame : aliasOp ek nk file line s = s := by
        simp [aliasOp, hfind]
      rw [hsame]
      exact ⟨hreg, hinj⟩
    | some e' =>
      have hra : (aliasOp ek nk file line s).registry
          = emplace nk ⟨file, line, e'.function⟩ s.registry := by
        simp [aliasOp, hfind]
      have hia : (aliasOp ek nk file line s).injectors = s.injectors := by
        simp [aliasOp, hfind]
      refine ⟨fun p hp => ?_, fun p hp => ?_⟩
      · rw [hra] at hp
        rcases mem_emplace hp with h1 | h2
        · rw [h1]; exact hk
        · exact hreg p h2
      · rw [hia] at hp
        exact hinj p hp

/-- C8 witness: the invariant holds after registering "K" over the empty
state, after installing an injector for "K", after disposing one, and
after aliasing "K" to "L" over `storeState`. -/
theorem C8_nonempty_preserved_witness :
    nonEmptyKeys (registerEntry "K" entryOne emptyState) ∧
    nonEmptyKeys (injectorInstall "K" entryOne emptyState) ∧
    nonEmptyKeys (injectorDispose "K" storeState) ∧
    nonEmptyKeys (aliasOp "K" "L" "afile" "40" storeState) :=
  ⟨(C8_nonempty_preserved emptyState "K" "x" "y" "f" "l" entryOne
      (by simp [nonEmptyKeys, emptyState])).1 (by simp),
    (C8_nonempty_preserved emptyState "K" "x" "y" "f" "l" entryOne
      (by simp [nonEmptyKeys, emptyState])).2.1 (by simp),
    (C8_nonempty_preserved storeState "K" "x" "y" "f" "l" entryOne
      (by simp [nonEmptyKeys, storeState, entryTwo])).2.2.1,
    (C8_nonempty_preserved storeState "K" "K" "L" "afile" "40" entryOne
      (by simp [nonEmptyKeys, storeState, entryTwo])).2.2.2 (by simp)⟩

/-- C10: under the `std::map` representation invariant, `GetKeys` lists the
store's keys in strictly ascending lexicographic order with no duplicates,
and `GetKeysWithLocations` lists one string per entry following exactly the
same key sequence: its i-th string is built from the i-th listed key and
that key's unique store entry. -/
theorem C10_keys_sorted {T A : Type} (s : RegState T A)
    (h : sortedKeys s.registry) :
    (GetKeys s).Pairwise (fun a b => keyLt a b = true) ∧
    (GetKeys s).Nodup ∧
    (∀ i : Nat, (GetKeysWithLocations s)[i]? =
      ((GetKeys s)[i]?).bind (fun key => (find key s.registry).map
        (fun e2 => e2.file ++ ":" ++ e2.line ++ ": " ++ key))) := by
  have hpair : (GetKeys s).Pairwise (fun a b => keyLt a b = true) := by
    rw [GetKeys, List.pairwise_map]
    exact h
  refine ⟨hpair, hpair.imp (fun hab => keyLt_ne hab), fun i => ?_⟩
  cases hp : s.registry[i]? with
  | none =>
    have h1 : (GetKeysWithLocations s)[i]? = none := by
      simp [GetKeysWithLocations, hp]
    have h2 : (GetKeys s)[i]? = none := by
      simp [GetKeys, hp]
    rw [h1, h2]
    rfl
  | some p =>
    have h1 : (GetKeysWithLocations s)[i]? = some (locationString p) := by
      simp [GetKeysWithLocations, hp]
    have h2 : (GetKeys s)[i]? = some p.1 := by
      simp [GetKeys, hp]
    rw [h1, h2]
    simp [find_of_getElem h hp, locationString]

/-- C10 witness: the two-key state, whose store is held in ascending key
order. -/
theorem C10_keys_sorted_witness :
    (GetKeys twoKeyState).Pairwise (fun a b => keyLt a b = true) ∧
    (GetKeys twoKeyState).Nodup ∧
    (∀ i : Nat, (GetKeysWithLocations twoKeyState)[i]? =
      ((GetKeys twoKeyState)[i]?).bind
        (fun key => (find key twoKeyState.registry).map
          (fun e2 => e2.file ++ ":" ++ e2.line ++ ": " ++ key))) :=
  C10_keys_sorted twoKeyState
    (by simp only [sortedKeys, twoKeyState, List.pairwise_cons]
        decide)

end Registerer
